import Mathlib

/-!
Verification of the `imagelink` command-line tool
(source: `src/imagelink/src/main.rs`).

The tool reads EXIF metadata from image files and creates date-based
symbolic links.  This file gives a shallow embedding of the program's
data model and operations, and proves properties about them.

Modelling conventions:
* Rust `String` / `OsString` / `PathBuf` values are Lean `String`s
  (all inputs are assumed to be valid UTF-8, so `to_string_lossy` is
  the identity).
* The filesystem is an explicit `World` value: a table of source files,
  the set of existing directories and the set of created links.
* I/O errors from the standard library and the `exif` crate are
  modelled by the message strings their `Display` instances produce.
* `println!` diagnostics and filesystem actions are recorded as an
  explicit list of effects (`Eff`).
-/

namespace Imagelink

/-- EXIF tags (`exif::Tag`).  Only the tags the program mentions are
named; all others are represented by their numeric code. -/
inductive Tag
  | dateTimeDigitized
  | dateTimeOriginal
  | dateTime
  | makerNote
  | other (code : Nat)
  deriving DecidableEq, Repr

/-- Model of `exif::Tag::description()`: the standard description text carried by
the `exif` crate for the tags the program can name in an error. -/
def Tag.description : Tag → Option String
  | .dateTimeDigitized => some "Date and time of digital data generation"
  | .dateTimeOriginal => some "Date and time of original data generation"
  | .dateTime => some "File change date and time"
  | .makerNote => some "Manufacturer notes"
  | .other _ => none

/-- One parsed EXIF field: its tag, the IFD number it belongs to
(`In::PRIMARY` is IFD 0), and the string its `display_value()` renders. -/
structure ExifField where
  tag : Tag
  ifdNum : Nat
  display : String
  deriving DecidableEq, Repr

/-- Parsed EXIF metadata of one file (`exif::Exif`): its field list. -/
structure ExifData where
  fields : List ExifField
  deriving DecidableEq, Repr

/-- Model of `Exif::get_field(tag, ifd)`: the field with the given tag in the
given IFD, if present. -/
def ExifData.getField (e : ExifData) (t : Tag) (ifd : Nat) : Option ExifField :=
  e.fields.find? (fun f => f.tag == t && f.ifdNum == ifd)

/-- The `Error` enum of the program.  `cantOpen`/`cantParse` carry the
display text of the underlying library error. -/
inductive Err
  | cantOpen (path : String) (msg : String)
  | cantParse (path : String) (msg : String)
  | missingField (path : String) (field : String)
  | tooSmall (path : String) (len : Nat)
  deriving DecidableEq, Repr

/-- The `snafu(display(...))` text of each error variant. -/
def errStr : Err → String
  | .cantOpen p msg => "Could not open input file '" ++ p ++ "': " ++ msg
  | .cantParse p msg => "Could not parse input file '" ++ p ++ "': " ++ msg
  | .missingField p f => "missing field in input file '" ++ p ++ "': " ++ f
  | .tooSmall p len => "file size (" ++ toString len ++ ") is too small (thumbnail?): '" ++ p ++ "'"

/-- The `DATETIME` priority list of tags used to find the photo date. -/
def DATETIME : List Tag :=
  [Tag.dateTimeDigitized, Tag.dateTimeOriginal, Tag.dateTime]

/-- The search loop inside `first_of`: the display value of the first
tag of `tags` that is present in the primary IFD. -/
def firstOfLoop (e : ExifData) : List Tag → Option String
  | [] => none
  | t :: ts =>
    match e.getField t 0 with
    | some f => some f.display
    | none => firstOfLoop e ts

/-- Model of `first_of(path, exif, tags)`: the display value of the first listed
tag present in the primary IFD, or a `MissingField` error naming the
description of `tags[0]`.  (On an empty tag list the source would panic
at `tags[0]`; the program only ever passes the non-empty `DATETIME`.) -/
def first_of (path : String) (e : ExifData) (tags : List Tag) : Except Err String :=
  match firstOfLoop e tags with
  | some v => .ok v
  | none =>
    .error (.missingField path ((tags.head?.bind Tag.description).getD "[unknown]"))

/-- The display value of a tag in the primary IFD, used to state the
priority property. -/
def displayOf (e : ExifData) (t : Tag) : Option String :=
  (e.getField t 0).map ExifField.display

/-!
The `DATE_REGEX` substitution.  The pattern is
`(\d{4})-(\d{2})-(\d{2}) (\d{2}):(\d{2}):(\d{2})` and `replace_all`
rewrites every non-overlapping, leftmost match to
`$y/$m/$d/$H-$M-$S-`.  The pattern has fixed length 19, so matching at
a position is deterministic and `replace_all` is the left-to-right
scan implemented below.  (`\d` is modelled as an ASCII decimal digit;
all strings the program meets here are ASCII.)
-/

/-- Read exactly `n` digit characters from the front of the list. -/
def grabDigits : Nat → List Char → Option (List Char × List Char)
  | 0, cs => some ([], cs)
  | _ + 1, [] => none
  | n + 1, c :: cs =>
    if c.isDigit then (grabDigits n cs).map (fun p => (c :: p.1, p.2)) else none

/-- Read exactly the character `ch` from the front of the list. -/
def grabChar (ch : Char) : List Char → Option (List Char)
  | [] => none
  | c :: cs => if c = ch then some cs else none

/-- Match `DATE_REGEX` at the front of the list.  On success, return
the replacement text `$y/$m/$d/$H-$M-$S-` for this match and the rest
of the input. -/
def matchDate (cs : List Char) : Option (List Char × List Char) :=
  match grabDigits 4 cs with
  | none => none
  | some (y, r1) =>
    match grabChar '-' r1 with
    | none => none
    | some r2 =>
      match grabDigits 2 r2 with
      | none => none
      | some (m, r3) =>
        match grabChar '-' r3 with
        | none => none
        | some r4 =>
          match grabDigits 2 r4 with
          | none => none
          | some (d, r5) =>
            match grabChar ' ' r5 with
            | none => none
            | some r6 =>
              match grabDigits 2 r6 with
              | none => none
              | some (hh, r7) =>
                match grabChar ':' r7 with
                | none => none
                | some r8 =>
                  match grabDigits 2 r8 with
                  | none => none
                  | some (mm, r9) =>
                    match grabChar ':' r9 with
                    | none => none
                    | some r10 =>
                      match grabDigits 2 r10 with
                      | none => none
                      | some (ss, rest) =>
                        some (y ++ '/' :: m ++ '/' :: d ++ '/' ::
                              hh ++ '-' :: mm ++ '-' :: ss ++ ['-'], rest)

/-- The `replace_all` scan, with a fuel argument for structural
recursion.  Fuel equal to the input length always suffices: every step
consumes at least one character (a match consumes 19). -/
def replDateAux : Nat → List Char → List Char
  | _, [] => []
  | 0, cs => cs
  | n + 1, c :: cs =>
    match matchDate (c :: cs) with
    | some (rep, rest) => rep ++ replDateAux n rest
    | none => c :: replDateAux n cs

/-- Model of `DATE_REGEX.replace_all(s, "$y/$m/$d/$H-$M-$S-")` on character
lists. -/
def replDate (cs : List Char) : List Char :=
  replDateAux cs.length cs

/-- Model of `str::replace(" ", "-")`: replace every space by a dash. -/
def replaceSpaces (s : String) : String :=
  String.mk (s.data.map (fun c => if c = ' ' then '-' else c))

/-!
Path handling.  Paths are strings; the component parser below follows
Rust's `std::path` on Unix: components are the slash-separated groups,
empty and `.` groups are dropped (except a leading `.` of a relative
path, which is kept as a `CurDir` component), and a leading slash is a
`RootDir` component.
-/

/-- A parsed path component (`std::path::Component` on Unix). -/
inductive PComp
  | rootDir
  | curDir
  | parentDir
  | normal (s : String)
  deriving DecidableEq, Repr

/-- Split a character list at every `/`.  Always returns at least one
(possibly empty) group. -/
def splitSlash : List Char → List (List Char)
  | [] => [[]]
  | c :: cs =>
    if c = '/' then [] :: splitSlash cs
    else
      match splitSlash cs with
      | [] => [[c]]
      | g :: gs => (c :: g) :: gs

/-- Classify a non-first slash group: empty and `.` groups vanish,
`..` is a parent component, anything else is a normal component. -/
def compOfGroup (g : List Char) : Option PComp :=
  if g = [] ∨ g = ['.'] then none
  else if g = ['.', '.'] then some .parentDir
  else some (.normal (String.mk g))

/-- Model of `Path::components()` of a path string (Unix rules). -/
def parseComponents (p : String) : List PComp :=
  match splitSlash p.data with
  | [] => []
  | g :: gs =>
    if p.data = [] then []
    else if g = [] then
      .rootDir :: gs.filterMap compOfGroup
    else
      (if g = ['.'] then [.curDir] else (compOfGroup g).toList)
        ++ gs.filterMap compOfGroup

/-- Model of `Path::file_name()`: the last component when it is a normal one. -/
def fileName (p : String) : Option String :=
  match (parseComponents p).getLast? with
  | some (PComp.normal s) => some s
  | _ => none

/-- Text of one component, for re-joining. -/
def compStr : PComp → String
  | .rootDir => ""
  | .curDir => "."
  | .parentDir => ".."
  | .normal s => s

/-- Join components of a relative path with `/`. -/
def joinRel : List PComp → String
  | [] => ""
  | [c] => compStr c
  | c :: rest => compStr c ++ "/" ++ joinRel rest

/-- Re-join a component list into a path string. -/
def joinComps : List PComp → String
  | [] => ""
  | [PComp.rootDir] => "/"
  | PComp.rootDir :: rest => "/" ++ joinRel rest
  | comps => joinRel comps

/-- Model of `Path::parent()`: the path without its final component; `none` for
the empty path and for the root. -/
def parentPath (p : String) : Option String :=
  match parseComponents p with
  | [] => none
  | [PComp.rootDir] => none
  | comps => some (joinComps comps.dropLast)

/-- The directories `fs::create_dir_all` brings into existence: every
non-empty prefix of the component list, as a path string. -/
def ancestorsOf (p : String) : List String :=
  let comps := parseComponents p
  (List.range comps.length).map (fun i => joinComps (comps.take (i + 1)))

/-- Model of `Path::is_absolute()` on Unix: the path has a root, i.e. begins
with `/`. -/
def isAbsolute (p : String) : Bool :=
  match p.data with
  | c :: _ => c == '/'
  | [] => false

/-- Does the path string end with the `/` separator? -/
def endsSlash (a : String) : Bool :=
  match a.data.getLast? with
  | some c => c == '/'
  | none => false

/-- Model of `PathBuf::push` on Unix path strings: an absolute argument
replaces the whole path, otherwise it is appended with a `/` separator
when needed. -/
def pushPath (a b : String) : String :=
  if isAbsolute b then b
  else if a = "" then b
  else if endsSlash a then a ++ b
  else a ++ "/" ++ b

/-- The link target built by `main`: start empty, push `".."` when
`--base` was given, push `"../../.."`, push the input file path. -/
def mkSrc (baseSet : Bool) (file : String) : String :=
  let s0 : String := ""
  let s1 := if baseSet then pushPath s0 ".." else s0
  let s2 := pushPath s1 "../../.."
  pushPath s2 file

/-!
Lexical path resolution, used to state what a created symlink points
at.  This models POSIX resolution on a tree whose intermediate
directories are real directories (not themselves symlinks): `..`
removes the last component (at the root it stays at the root), `.` is
the identity, a leading `/` restarts from the root.
-/

/-- One resolution step on an absolute path given as its component
names. -/
def resolveStep (acc : List String) : PComp → List String
  | .rootDir => []
  | .curDir => acc
  | .parentDir => acc.dropLast
  | .normal s => acc ++ [s]

/-- Resolve a path string against an absolute current directory. -/
def resolvePath (cwd : List String) (p : String) : List String :=
  (parseComponents p).foldl resolveStep cwd

/-- The file reached by following a symlink created at `linkPath`
whose stored target is `target`: the target is resolved against the
directory containing the link. -/
def resolveLink (cwd : List String) (linkPath target : String) : List String :=
  resolvePath ((resolvePath cwd linkPath).dropLast) target

/-!
The filesystem world and the per-file processing loop of `main`.
-/

/-- The on-disk state of one input file, as the program can observe
it.  `openErrMsg = some msg` means `File::open` fails with that
message; `metaLen` is the length reported by `file.metadata()` (`none`
when that call fails, in which case the source skips the size check);
`exifData` is the outcome of `Reader::read_from_container`.  `mtime`
and `ctime` are the filesystem timestamps: they exist on disk but no
function below ever reads them. -/
structure SrcFile where
  openErrMsg : Option String
  metaLen : Option Nat
  exifData : Except String ExifData
  mtime : Nat
  ctime : Nat
  deriving Repr

/-- The filesystem: the input-file table, the directories that exist,
and the symlinks created so far (link path, stored target). -/
structure World where
  files : List (String × SrcFile)
  dirs : List String
  links : List (String × String)
  deriving Repr

/-- The command-line configuration relevant to the per-file loop. -/
structure Config where
  dump : Bool
  noExec : Bool
  baseArg : Option String
  deriving Repr

/-- The effective base directory (`"."` when `--base` is absent). -/
def Config.base (c : Config) : String := c.baseArg.getD "."

/-- Whether `--base` was given. -/
def Config.baseSet (c : Config) : Bool := c.baseArg.isSome

/-- Observable effects of the loop: diagnostic output, the echoed
`mkdir -p`/`ln -s` command lines, error messages, and the two
filesystem actions (`fs::create_dir_all`, `fs::symlink`). -/
inductive Eff
  | note (s : String)
  | echoMkdir (dir : String)
  | echoLink (src targ : String)
  | errNote (s : String)
  | mkdirAll (dir : String)
  | mkLink (src targ : String)
  deriving DecidableEq, Repr

/-- Look an input file up in the world. -/
def lookupFile (w : World) (p : String) : Option SrcFile :=
  (w.files.find? (fun kv => kv.1 == p)).map (fun kv => kv.2)

/-- Does any filesystem entry (directory, link or input file) exist at
this path?  `fs::symlink` fails when its destination path exists. -/
def existsAt (w : World) (p : String) : Bool :=
  w.dirs.contains p || w.links.any (fun l => l.1 == p) || (lookupFile w p).isSome

/-- The parse step of `get_exif`: `read_from_container` wrapped into
the program's `Parse` error. -/
def parseStep (f : SrcFile) (path : String) : Except Err ExifData :=
  match f.exifData with
  | .error msg => .error (.cantParse path msg)
  | .ok e => .ok e

/-- Model of `get_exif` on an already-opened file: the size check (only when
`metadata()` reported a length) followed by the parse step.  The
per-field diagnostic loop of the source only prints and is omitted. -/
def getExifFile (f : SrcFile) (path : String) : Except Err ExifData :=
  match f.metaLen with
  | some len =>
    if len < 100 * 1024 then .error (.tooSmall path len)
    else parseStep f path
  | none => parseStep f path

/-- Model of `get_exif(path)`: open the file (a missing file fails like any
other open error), then size-check and parse. -/
def get_exif (w : World) (path : String) : Except Err ExifData :=
  match lookupFile w path with
  | none => .error (.cantOpen path "No such file or directory (os error 2)")
  | some f =>
    match f.openErrMsg with
    | some msg => .error (.cantOpen path msg)
    | none => getExifFile f path

/-- Model of `link_name(exif, path, base)`: pick the datetime via `first_of`,
substitute `DATE_REGEX`, and build
`base ++ "/" ++ substituted ++ (basename with spaces dashed)`.
When the path has no final normal component the source falls back to
the whole path string (`to_string_lossy`). -/
def link_name (e : ExifData) (path base : String) : Except Err String :=
  match first_of path e DATETIME with
  | .error err => .error err
  | .ok datetime =>
    let res := String.mk (replDate datetime.data)
    let s :=
      match fileName path with
      | some f => f
      | none => path
    let s2 := replaceSpaces s
    .ok (base ++ "/" ++ res ++ s2)

/-- The body of the `'file` loop of `main` for one input file:
build the relative link target, run `get_exif` then `link_name`
(printing the error and stopping on failure), honour `--exif` dump
mode, create the missing parent directory unless `--no-execute`, echo
and perform the symlink.  Returns the emitted effects and the new
world. -/
def processFile (cfg : Config) (w : World) (file : String) : List Eff × World :=
  let src := mkSrc cfg.baseSet file
  match get_exif w file with
  | .error e => ([.errNote (errStr e)], w)
  | .ok ex =>
    match link_name ex file cfg.base with
    | .error e => ([.errNote (errStr e)], w)
    | .ok targ =>
      if cfg.dump then ([.note ("target: " ++ targ)], w)
      else
        let step1 : List Eff × World :=
          match parentPath targ with
          | none => ([], w)
          | some par =>
            if w.dirs.contains par then ([], w)
            else if cfg.noExec then ([.echoMkdir par], w)
            else ([.echoMkdir par, .mkdirAll par],
                  { w with dirs := ancestorsOf par ++ w.dirs })
        let w1 := step1.2
        let step2 : List Eff × World :=
          if cfg.noExec then ([.echoLink src targ], w1)
          else if existsAt w1 targ then
            ([.echoLink src targ, .errNote "File exists (os error 17)"], w1)
          else
            ([.echoLink src targ, .mkLink src targ],
             { w1 with links := (targ, src) :: w1.links })
        (step1.1 ++ step2.1, step2.2)

/-- The whole `'file` loop: process the input files in order, threading
the filesystem through. -/
def processAll (cfg : Config) : World → List String → List Eff × World
  | w, [] => ([], w)
  | w, f :: fs =>
    let r := processFile cfg w f
    let rs := processAll cfg r.2 fs
    (r.1 ++ rs.1, rs.2)

/-- The link path `main` computes for one on-disk file (the
composition `get_exif` then `link_name`), used to state that the path
depends only on the EXIF content and the given name. -/
def fileTarget (f : SrcFile) (path base : String) : Except Err String :=
  match (match f.openErrMsg with
         | some msg => Except.error (Err.cantOpen path msg)
         | none => getExifFile f path) with
  | .error e => .error e
  | .ok ex => link_name ex path base

/-!
Shared lemmas about the per-file loop.
-/

/-- When `get_exif` fails, the loop body only prints the error and
leaves the world untouched. -/
theorem processFile_exif_error {cfg : Config} {w : World} {file : String} {e : Err}
    (h : get_exif w file = .error e) :
    processFile cfg w file = ([.errNote (errStr e)], w) := by
  simp [processFile, h]

/-- When `link_name` fails, the loop body only prints the error and
leaves the world untouched. -/
theorem processFile_link_error {cfg : Config} {w : World} {file : String}
    {ex : ExifData} {e : Err}
    (h1 : get_exif w file = .ok ex) (h2 : link_name ex file cfg.base = .error e) :
    processFile cfg w file = ([.errNote (errStr e)], w) := by
  simp [processFile, h1, h2]

/-!
Claim theorems.
-/

/-- C1: the timestamp used to build the link path is the display value
of the first present field in the priority order DateTimeDigitized,
DateTimeOriginal, DateTime (primary IFD), and when none of the three is
present the operation fails with a `MissingField` error (naming the
description of `DATETIME[0]`) instead of producing a path. -/
theorem claim1_datetime_priority :
    (∀ (path : String) (e : ExifData),
      first_of path e DATETIME =
        match displayOf e Tag.dateTimeDigitized with
        | some v => .ok v
        | none =>
          match displayOf e Tag.dateTimeOriginal with
          | some v => .ok v
          | none =>
            match displayOf e Tag.dateTime with
            | some v => .ok v
            | none =>
              .error (.missingField path "Date and time of digital data generation"))
  ∧ (∀ (path base : String) (e : ExifData),
      displayOf e Tag.dateTimeDigitized = none →
      displayOf e Tag.dateTimeOriginal = none →
      displayOf e Tag.dateTime = none →
      link_name e path base =
        .error (.missingField path "Date and time of digital data generation")) := by
  constructor
  · intro path e
    cases h1 : e.getField Tag.dateTimeDigitized 0 <;>
      cases h2 : e.getField Tag.dateTimeOriginal 0 <;>
        cases h3 : e.getField Tag.dateTime 0 <;>
          simp [first_of, DATETIME, firstOfLoop, displayOf, h1, h2, h3, Tag.description]
  · intro path base e h1 h2 h3
    simp only [displayOf, Option.map_eq_none'] at h1 h2 h3
    simp [link_name, first_of, DATETIME, firstOfLoop, h1, h2, h3, Tag.description]

/-- EXIF record with no date field at all, for the C1 witness. -/
def exNoDate : ExifData := ⟨[⟨Tag.makerNote, 0, "acme"⟩]⟩

/-- Witness for C1: on a record with no date field, `link_name` fails
with the `MissingField` error. -/
theorem claim1_witness :
    link_name exNoDate "p.jpg" "base" =
      .error (.missingField "p.jpg" "Date and time of digital data generation") :=
  claim1_datetime_priority.2 "p.jpg" "base" exNoDate rfl rfl rfl

/-- C4: a failure of the metadata steps (open, size check, parse, or
field lookup) prevents all later steps for that file: the loop body
prints the error only, and neither a directory nor a link is created
(the world is returned unchanged). -/
theorem claim4_failure_stops_processing :
    (∀ (cfg : Config) (w : World) (file : String) (e : Err),
      get_exif w file = .error e →
      processFile cfg w file = ([.errNote (errStr e)], w))
  ∧ (∀ (cfg : Config) (w : World) (file : String) (ex : ExifData) (e : Err),
      get_exif w file = .ok ex →
      link_name ex file cfg.base = .error e →
      processFile cfg w file = ([.errNote (errStr e)], w)) :=
  ⟨fun _ _ _ _ h => processFile_exif_error h,
   fun _ _ _ _ _ h1 h2 => processFile_link_error h1 h2⟩

/-- A file whose EXIF data does not parse, for the C4 witness. -/
def fBadParse : SrcFile := ⟨none, some 200000, .error "broken JPEG", 7, 9⟩

/-- A world holding only `bad.jpg` (unparsable). -/
def wBadParse : World := ⟨[("bad.jpg", fBadParse)], [], []⟩

/-- The default configuration: no flags, no `--base`. -/
def cfgDefault : Config := ⟨false, false, none⟩

/-- Witness for C4: a parse failure makes the loop body print the
error and change nothing. -/
theorem claim4_witness :
    processFile cfgDefault wBadParse "bad.jpg" =
      ([.errNote (errStr (.cantParse "bad.jpg" "broken JPEG"))], wBadParse) :=
  claim4_failure_stops_processing.1 cfgDefault wBadParse "bad.jpg"
    (.cantParse "bad.jpg" "broken JPEG") rfl

/-- C6: the computed link path depends only on the EXIF content and
the file's given name, never on the filesystem timestamps: changing
`mtime`/`ctime` arbitrarily leaves `fileTarget` unchanged. -/
theorem claim6_no_filesystem_timestamps :
    ∀ (f : SrcFile) (m c : Nat) (path base : String),
      fileTarget { f with mtime := m, ctime := c } path base =
        fileTarget f path base := by
  intro f m c path base
  rfl

/-- C7: each input file is attempted exactly once, in order; a failure
of the open/size/parse/field-lookup steps prints the error and leaves
the remaining files to run against the very same filesystem, so their
outcomes are unaffected by the failure. -/
theorem claim7_continue_after_error :
    (∀ (cfg : Config) (w : World) (f : String) (rest : List String),
      processAll cfg w (f :: rest) =
        ((processFile cfg w f).1 ++ (processAll cfg (processFile cfg w f).2 rest).1,
         (processAll cfg (processFile cfg w f).2 rest).2))
  ∧ (∀ (cfg : Config) (w : World) (f : String) (rest : List String) (e : Err),
      get_exif w f = .error e →
      processAll cfg w (f :: rest) =
        (.errNote (errStr e) :: (processAll cfg w rest).1,
         (processAll cfg w rest).2))
  ∧ (∀ (cfg : Config) (w : World) (f : String) (rest : List String)
       (ex : ExifData) (e : Err),
      get_exif w f = .ok ex →
      link_name ex f cfg.base = .error e →
      processAll cfg w (f :: rest) =
        (.errNote (errStr e) :: (processAll cfg w rest).1,
         (processAll cfg w rest).2)) := by
  refine ⟨fun cfg w f rest => rfl, ?_, ?_⟩
  · intro cfg w f rest e h
    simp [processAll, processFile_exif_error h]
  · intro cfg w f rest ex e h1 h2
    simp [processAll, processFile_link_error h1 h2]

/-- A readable file that is too small for the size check, for
witnesses. -/
def fTiny : SrcFile := ⟨none, some 5, .ok ⟨[⟨Tag.dateTime, 0, "2020-01-02 03:04:05"⟩]⟩, 1, 2⟩

/-- A normal, processable photo: big enough, with a primary-IFD
DateTimeOriginal field. -/
def fGood : SrcFile :=
  ⟨none, some 3000000, .ok ⟨[⟨Tag.dateTimeOriginal, 0, "2021-12-31 23:59:58"⟩]⟩, 3, 4⟩

/-- A world holding a tiny thumbnail and a good photo. -/
def wMixed : World := ⟨[("tiny.jpg", fTiny), ("good.jpg", fGood)], [], []⟩

/-- Witness for C7: the failing `tiny.jpg` only prepends its error
message; `good.jpg` is processed exactly as if it were alone. -/
theorem claim7_witness :
    processAll cfgDefault wMixed ["tiny.jpg", "good.jpg"] =
      (.errNote (errStr (.tooSmall "tiny.jpg" 5)) ::
         (processAll cfgDefault wMixed ["good.jpg"]).1,
       (processAll cfgDefault wMixed ["good.jpg"]).2) :=
  (claim7_continue_after_error.2.1) cfgDefault wMixed "tiny.jpg" ["good.jpg"]
    (.tooSmall "tiny.jpg" 5) rfl

/-- Monotonicity of one loop iteration: the input-file table is never
touched, and directories and links are only added. -/
theorem processFile_world_mono (cfg : Config) (w : World) (file : String) :
    (processFile cfg w file).2.files = w.files ∧
    (∀ d ∈ w.dirs, d ∈ (processFile cfg w file).2.dirs) ∧
    (∀ l ∈ w.links, l ∈ (processFile cfg w file).2.links) := by
  cases hg : get_exif w file with
  | error e => simp [processFile_exif_error hg]
  | ok ex =>
    cases hl : link_name ex file cfg.base with
    | error e => simp [processFile_link_error hg hl]
    | ok targ =>
      simp only [processFile, hg, hl]
      cases hd : cfg.dump with
      | true => simp
      | false =>
        simp only [Bool.false_eq_true, if_false]
        cases hp : parentPath targ with
        | none =>
          simp only
          cases hn : cfg.noExec with
          | true => simp
          | false =>
            by_cases he : existsAt w targ = true <;> simp [he] <;> tauto
        | some par =>
          by_cases hc : w.dirs.contains par = true
          · simp only [hc, if_true]
            cases hn : cfg.noExec with
            | true => simp
            | false =>
              by_cases he : existsAt w targ = true <;> simp [he] <;> tauto
          · simp only [Bool.not_eq_true] at hc
            simp only [hc, Bool.false_eq_true, if_false]
            cases hn : cfg.noExec with
            | true => simp
            | false =>
              by_cases he :
                  existsAt { w with dirs := ancestorsOf par ++ w.dirs } targ = true <;>
                simp [he, List.mem_append] <;> tauto

/-- C10: the program never modifies, moves or duplicates an input
file: over any run of the loop the file table is unchanged, and the
only filesystem entries created are new directories and links (the
pre-existing ones all survive).  A created link stores only a target
path, never file contents. -/
theorem claim10_originals_untouched :
    ∀ (cfg : Config) (w : World) (files : List String),
      (processAll cfg w files).2.files = w.files ∧
      (∀ d ∈ w.dirs, d ∈ (processAll cfg w files).2.dirs) ∧
      (∀ l ∈ w.links, l ∈ (processAll cfg w files).2.links) := by
  intro cfg w files
  induction files generalizing w with
  | nil => exact ⟨rfl, fun d h => h, fun l h => h⟩
  | cons f rest ih =>
    have h1 := processFile_world_mono cfg w f
    have h2 := ih (processFile cfg w f).2
    exact ⟨h2.1.trans h1.1,
           fun d hd => h2.2.1 d (h1.2.1 d hd),
           fun l hl => h2.2.2 l (h1.2.2 l hl)⟩

/-- Is an effect a filesystem action (as opposed to printed output)? -/
def isAction : Eff → Bool
  | .mkdirAll _ => true
  | .mkLink _ _ => true
  | _ => false

/-- Under `--no-execute` one loop iteration changes nothing and emits
no filesystem action. -/
theorem processFile_noExec (cfg : Config) (w : World) (file : String)
    (h : cfg.noExec = true) :
    (processFile cfg w file).2 = w ∧
    ∀ eff ∈ (processFile cfg w file).1, isAction eff = false := by
  cases hg : get_exif w file with
  | error e => simp [processFile_exif_error hg, isAction]
  | ok ex =>
    cases hl : link_name ex file cfg.base with
    | error e => simp [processFile_link_error hg hl, isAction]
    | ok targ =>
      simp only [processFile, hg, hl]
      cases hd : cfg.dump with
      | true => simp [isAction]
      | false =>
        simp only [Bool.false_eq_true, if_false, h, if_true]
        cases hp : parentPath targ with
        | none => simp [isAction]
        | some par =>
          by_cases hc : par ∈ w.dirs <;> simp [hc, isAction]

/-- Under `--no-execute` the whole loop changes nothing and emits no
filesystem action. -/
theorem processAll_noExec (cfg : Config) (w : World) (files : List String)
    (h : cfg.noExec = true) :
    (processAll cfg w files).2 = w ∧
    ∀ eff ∈ (processAll cfg w files).1, isAction eff = false := by
  induction files generalizing w with
  | nil => simp [processAll]
  | cons f rest ih =>
    have h1 := processFile_noExec cfg w f h
    have h2 := ih (processFile cfg w f).2
    refine ⟨h2.1.trans h1.1, ?_⟩
    intro eff heff
    simp only [processAll, List.mem_append] at heff
    rcases heff with hmem | hmem
    · exact h1.2 eff hmem
    · exact h2.2 eff hmem

/-- C8: with `--no-execute` the loop creates no directories and no
links (the filesystem is returned unchanged and no action effect is
emitted), while for a successfully processed file (dump mode off) the
`ln -s` command line is still printed, and the `mkdir -p` line is
printed whenever the parent directory is missing. -/
theorem claim8_no_execute :
    (∀ (cfg : Config) (w : World) (files : List String),
      cfg.noExec = true →
      (processAll cfg w files).2 = w ∧
      ∀ eff ∈ (processAll cfg w files).1, isAction eff = false)
  ∧ (∀ (cfg : Config) (w : World) (file : String) (ex : ExifData) (targ : String),
      cfg.noExec = true → cfg.dump = false →
      get_exif w file = .ok ex →
      link_name ex file cfg.base = .ok targ →
      Eff.echoLink (mkSrc cfg.baseSet file) targ ∈ (processFile cfg w file).1 ∧
      (∀ par, parentPath targ = some par → w.dirs.contains par = false →
        Eff.echoMkdir par ∈ (processFile cfg w file).1)) := by
  refine ⟨fun cfg w files h => processAll_noExec cfg w files h, ?_⟩
  intro cfg w file ex targ hn hd hg hl
  simp only [processFile, hg, hl, hd, Bool.false_eq_true, if_false, hn, if_true]
  constructor
  · cases hp : parentPath targ with
    | none => simp
    | some par =>
      by_cases hc : par ∈ w.dirs <;> simp [hc]
  · intro par hp hc
    have hc' : par ∉ w.dirs := by simpa using hc
    simp [hp, hc']

/-- A configuration with `--no-execute` set. -/
def cfgNoExec : Config := ⟨false, true, none⟩

/-- C5: a readable file whose reported size is below 102400 bytes
makes `get_exif` return `TooSmall` carrying that size, whatever its
EXIF content is (so the EXIF bytes are never parsed), and the loop
body then creates nothing; a file whose reported size is at least
102400 can never produce `TooSmall`. -/
theorem claim5_small_file_check :
    (∀ (cfg : Config) (w : World) (path : String) (f : SrcFile) (n : Nat),
      lookupFile w path = some f → f.openErrMsg = none →
      f.metaLen = some n → n < 102400 →
      get_exif w path = .error (.tooSmall path n) ∧
      (∀ ed, getExifFile { f with exifData := ed } path =
        .error (.tooSmall path n)) ∧
      processFile cfg w path = ([.errNote (errStr (.tooSmall path n))], w))
  ∧ (∀ (w : World) (path : String) (f : SrcFile) (sz n : Nat),
      lookupFile w path = some f → f.metaLen = some sz → 102400 ≤ sz →
      get_exif w path ≠ .error (.tooSmall path n)) := by
  constructor
  · intro cfg w path f n hl ho hm hn
    have hsz : n < 100 * 1024 := by omega
    have hx : get_exif w path = .error (.tooSmall path n) := by
      simp [get_exif, hl, ho, getExifFile, hm, hsz]
    exact ⟨hx, fun ed => by simp [getExifFile, hm, hsz],
           processFile_exif_error hx⟩
  · intro w path f sz n hl hm hsz
    have hge : ¬sz < 100 * 1024 := by omega
    cases ho : f.openErrMsg with
    | some msg => simp [get_exif, hl, ho]
    | none =>
      cases hp : f.exifData with
      | error msg => simp [get_exif, hl, ho, getExifFile, hm, hge, parseStep, hp]
      | ok ed => simp [get_exif, hl, ho, getExifFile, hm, hge, parseStep, hp]

/-- Witness for C5: `tiny.jpg` (5 bytes, valid EXIF inside) is
rejected as too small and no effect beyond the error message occurs. -/
theorem claim5_witness :
    get_exif wMixed "tiny.jpg" = .error (.tooSmall "tiny.jpg" 5) ∧
    processFile cfgDefault wMixed "tiny.jpg" =
      ([.errNote (errStr (.tooSmall "tiny.jpg" 5))], wMixed) := by
  have h := claim5_small_file_check.1 cfgDefault wMixed "tiny.jpg" fTiny 5
    rfl rfl rfl (by decide)
  exact ⟨h.1, h.2.2⟩

/-- C9: the link's file name is the input path's final component with
every space replaced by `-`; when the path has no final normal
component, the string form of the whole path (with the same
replacement) is used instead. -/
theorem claim9_basename_spaces :
    ∀ (ex : ExifData) (path base dt : String),
      first_of path ex DATETIME = .ok dt →
      (∀ name, fileName path = some name →
        link_name ex path base =
          .ok (base ++ "/" ++ String.mk (replDate dt.data) ++ replaceSpaces name)) ∧
      (fileName path = none →
        link_name ex path base =
          .ok (base ++ "/" ++ String.mk (replDate dt.data) ++ replaceSpaces path)) := by
  intro ex path base dt h
  constructor
  · intro name hn
    simp [link_name, h, hn]
  · intro hn
    simp [link_name, h, hn]

/-- EXIF record whose only date field displays
`2020-01-02 03:04:05`, for witnesses. -/
def exDated : ExifData := ⟨[⟨Tag.dateTimeDigitized, 0, "2020-01-02 03:04:05"⟩]⟩

/-!
Lemmas about the `DATE_REGEX` substitution on a string that is exactly
one well-formed timestamp.
-/

/-- The reader `grabDigits` consumes exactly an all-digit prefix of the right
length. -/
theorem grabDigits_exact (n : Nat) (ds rest : List Char) (hn : ds.length = n)
    (h : ∀ c ∈ ds, c.isDigit = true) :
    grabDigits n (ds ++ rest) = some (ds, rest) := by
  subst hn
  induction ds with
  | nil => rfl
  | cons c cs ih =>
    have hc : c.isDigit = true := h c (List.mem_cons_self c cs)
    simp [grabDigits, hc, ih (fun x hx => h x (List.mem_cons_of_mem c hx))]

/-- The reader `grabChar` consumes exactly the expected character. -/
theorem grabChar_exact (ch : Char) (rest : List Char) :
    grabChar ch (ch :: rest) = some rest := by
  simp [grabChar]

/-- The matcher `matchDate` succeeds on a well-formed timestamp prefix and
produces the `$y/$m/$d/$H-$M-$S-` replacement. -/
theorem matchDate_exact (y m d hh mm ss rest : List Char)
    (hy : y.length = 4) (hm : m.length = 2) (hd : d.length = 2)
    (hH : hh.length = 2) (hM : mm.length = 2) (hS : ss.length = 2)
    (dy : ∀ c ∈ y, c.isDigit = true) (dm : ∀ c ∈ m, c.isDigit = true)
    (dd : ∀ c ∈ d, c.isDigit = true) (dH : ∀ c ∈ hh, c.isDigit = true)
    (dM : ∀ c ∈ mm, c.isDigit = true) (dS : ∀ c ∈ ss, c.isDigit = true) :
    matchDate (y ++ '-' :: (m ++ '-' :: (d ++ ' ' ::
        (hh ++ ':' :: (mm ++ ':' :: (ss ++ rest)))))) =
      some (y ++ '/' :: (m ++ '/' :: (d ++ '/' ::
        (hh ++ '-' :: (mm ++ '-' :: (ss ++ ['-']))))), rest) := by
  have g1 := grabDigits_exact 4 y
    ('-' :: (m ++ '-' :: (d ++ ' ' :: (hh ++ ':' :: (mm ++ ':' :: (ss ++ rest)))))) hy dy
  have g2 := grabDigits_exact 2 m
    ('-' :: (d ++ ' ' :: (hh ++ ':' :: (mm ++ ':' :: (ss ++ rest))))) hm dm
  have g3 := grabDigits_exact 2 d
    (' ' :: (hh ++ ':' :: (mm ++ ':' :: (ss ++ rest)))) hd dd
  have g4 := grabDigits_exact 2 hh (':' :: (mm ++ ':' :: (ss ++ rest))) hH dH
  have g5 := grabDigits_exact 2 mm (':' :: (ss ++ rest)) hM dM
  have g6 := grabDigits_exact 2 ss rest hS dS
  simp [matchDate, g1, g2, g3, g4, g5, g6, grabChar_exact]

/-- The scanner on the empty input. -/
theorem replDateAux_nil (n : Nat) : replDateAux n [] = [] := by
  cases n <;> rfl

/-- A successful match at the front makes the scanner emit the
replacement and continue after the match. -/
theorem replDateAux_cons_match (n : Nat) (cs rep rest : List Char)
    (h : matchDate cs = some (rep, rest)) :
    replDateAux (n + 1) cs = rep ++ replDateAux n rest := by
  cases cs with
  | nil =>
    rw [show matchDate ([] : List Char) = none from rfl] at h
    cases h
  | cons c cs' => simp [replDateAux, h]

/-- On an input that is exactly one match, `replDate` is exactly the
replacement. -/
theorem replDate_exact (cs rep : List Char) (hlen : cs.length = 19)
    (h : matchDate cs = some (rep, [])) :
    replDate cs = rep := by
  unfold replDate
  rw [hlen, show (19 : Nat) = 18 + 1 from rfl,
      replDateAux_cons_match 18 cs rep [] h, replDateAux_nil, List.append_nil]

/-- The substitution on a string that is exactly one well-formed
timestamp `y-m-d hh:mm:ss` yields exactly `y/m/d/hh-mm-ss-`. -/
theorem replDate_timestamp (y m d hh mm ss : String)
    (hy : y.length = 4) (hm : m.length = 2) (hd : d.length = 2)
    (hH : hh.length = 2) (hM : mm.length = 2) (hS : ss.length = 2)
    (dy : ∀ c ∈ y.data, c.isDigit = true) (dm : ∀ c ∈ m.data, c.isDigit = true)
    (dd : ∀ c ∈ d.data, c.isDigit = true) (dH : ∀ c ∈ hh.data, c.isDigit = true)
    (dM : ∀ c ∈ mm.data, c.isDigit = true) (dS : ∀ c ∈ ss.data, c.isDigit = true) :
    String.mk (replDate
        (y ++ "-" ++ m ++ "-" ++ d ++ " " ++ hh ++ ":" ++ mm ++ ":" ++ ss).data) =
      y ++ "/" ++ m ++ "/" ++ d ++ "/" ++ hh ++ "-" ++ mm ++ "-" ++ ss ++ "-" := by
  have hy' : y.data.length = 4 := hy
  have hm' : m.data.length = 2 := hm
  have hd' : d.data.length = 2 := hd
  have hH' : hh.data.length = 2 := hH
  have hM' : mm.data.length = 2 := hM
  have hS' : ss.data.length = 2 := hS
  have mex := matchDate_exact y.data m.data d.data hh.data mm.data ss.data []
    hy' hm' hd' hH' hM' hS' dy dm dd dH dM dS
  simp only [List.append_nil] at mex
  have hdata : (y ++ "-" ++ m ++ "-" ++ d ++ " " ++ hh ++ ":" ++ mm ++ ":" ++ ss).data
      = y.data ++ '-' :: (m.data ++ '-' :: (d.data ++ ' ' ::
          (hh.data ++ ':' :: (mm.data ++ ':' :: ss.data)))) := by
    simp [String.data_append]
  have hlenL : (y.data ++ '-' :: (m.data ++ '-' :: (d.data ++ ' ' ::
      (hh.data ++ ':' :: (mm.data ++ ':' :: ss.data))))).length = 19 := by
    simp [List.length_append, hy', hm', hd', hH', hM', hS']
  apply String.ext
  show replDate _ = _
  rw [hdata, replDate_exact _ _ hlenL mex]
  simp [String.data_append]

/-!
Lemmas about path parsing, for the symlink-resolution claim.
-/

/-- The splitter `splitSlash` always yields at least one group. -/
theorem splitSlash_ne_nil (cs : List Char) : splitSlash cs ≠ [] := by
  cases cs with
  | nil => simp [splitSlash]
  | cons c cs' =>
    by_cases h : c = '/'
    · simp [splitSlash, h]
    · simp only [splitSlash, h, if_false]
      cases hs : splitSlash cs' <;> simp

/-- A slash-free string is a single group. -/
theorem splitSlash_noSlash (xs : List Char) (h : '/' ∉ xs) :
    splitSlash xs = [xs] := by
  induction xs with
  | nil => rfl
  | cons c cs ih =>
    have hc : ¬(c = '/') := fun hc => h (hc ▸ List.mem_cons_self c cs)
    have ih' := ih (fun hm => h (List.mem_cons_of_mem c hm))
    simp [splitSlash, hc, ih']

/-- Peeling one slash-free group off the front. -/
theorem splitSlash_seg (xs cs : List Char) (h : '/' ∉ xs) :
    splitSlash (xs ++ '/' :: cs) = xs :: splitSlash cs := by
  induction xs with
  | nil => simp [splitSlash]
  | cons c tl ih =>
    have hc : ¬(c = '/') := fun hc => h (hc ▸ List.mem_cons_self c tl)
    have ih' := ih (fun hm => h (List.mem_cons_of_mem c hm))
    simp [splitSlash, hc, ih']

/-- No group produced by `splitSlash` contains a slash. -/
theorem splitSlash_groups (cs : List Char) : ∀ g ∈ splitSlash cs, '/' ∉ g := by
  induction cs with
  | nil =>
    intro g hg
    simp only [splitSlash, List.mem_singleton] at hg
    subst hg; simp
  | cons c cs' ih =>
    intro g hg
    by_cases hc : c = '/'
    · simp only [splitSlash, hc, if_true, List.mem_cons] at hg
      rcases hg with rfl | hg
      · simp
      · exact ih g hg
    · simp only [splitSlash, hc, if_false] at hg
      cases hs : splitSlash cs' with
      | nil => exact absurd hs (splitSlash_ne_nil cs')
      | cons g0 gs =>
        rw [hs] at hg
        rcases List.mem_cons.mp hg with rfl | hmem
        · intro hin
          rcases List.mem_cons.mp hin with h1 | h1
          · exact hc h1.symm
          · exact ih g0 (hs ▸ List.mem_cons_self g0 gs) h1
        · exact ih g (hs ▸ List.mem_cons_of_mem g0 hmem)

/-- Components of a path whose text starts with a slash-free, non-empty
group followed by a slash. -/
theorem parseComponents_data_head (p : String) (g rest : List Char)
    (hdata : p.data = g ++ '/' :: rest) (hg : '/' ∉ g) (hne : g ≠ []) :
    parseComponents p =
      (if g = ['.'] then [PComp.curDir] else (compOfGroup g).toList)
        ++ (splitSlash rest).filterMap compOfGroup := by
  unfold parseComponents
  rw [hdata, splitSlash_seg g rest hg]
  simp [hne]

/-- Components of a slash-free, non-empty path. -/
theorem parseComponents_data_noSlash (p : String)
    (hg : '/' ∉ p.data) (hne : p.data ≠ []) :
    parseComponents p =
      (if p.data = ['.'] then [PComp.curDir] else (compOfGroup p.data).toList) := by
  unfold parseComponents
  rw [splitSlash_noSlash p.data hg]
  simp [hne]

/-- Value of `compOfGroup` on a plain (non-dot, non-empty) group. -/
theorem compOfGroup_normal (g : List Char) (h1 : g ≠ []) (h2 : g ≠ ['.'])
    (h3 : g ≠ ['.', '.']) : compOfGroup g = some (.normal (String.mk g)) := by
  simp [compOfGroup, h1, h2, h3]

/-- An all-digit, non-empty group is a plain group. -/
theorem digit_seg (g : List Char) (hd : ∀ c ∈ g, c.isDigit = true) :
    g ≠ ['.'] ∧ g ≠ ['.', '.'] ∧ '/' ∉ g := by
  refine ⟨?_, ?_, ?_⟩
  · intro h
    subst h
    exact absurd (hd '.' (by simp)) (by decide)
  · intro h
    subst h
    exact absurd (hd '.' (by simp)) (by decide)
  · intro hmem
    exact absurd (hd '/' hmem) (by decide)

/-- A group of length at least 3 is not a dot group. -/
theorem long_seg (g : List Char) (hlen : 3 ≤ g.length) :
    g ≠ ['.'] ∧ g ≠ ['.', '.'] := by
  constructor <;> intro h <;> subst h <;> simp at hlen

/-- Dashing the spaces never introduces a slash. -/
theorem replaceSpaces_noSlash (s : String) (h : '/' ∉ s.data) :
    '/' ∉ (replaceSpaces s).data := by
  intro hmem
  rw [show (replaceSpaces s).data
      = s.data.map (fun c => if c = ' ' then '-' else c) from rfl] at hmem
  obtain ⟨c, hc, hf⟩ := List.mem_map.mp hmem
  by_cases hsp : c = ' '
  · rw [hsp] at hf; simp at hf
  · rw [if_neg hsp] at hf
    exact h (hf ▸ hc)

/-- Membership in the last position implies membership. -/
theorem mem_of_getLast?_eq (l : List PComp) (a : PComp) (h : l.getLast? = some a) :
    a ∈ l := by
  obtain ⟨hne, rfl⟩ := List.mem_getLast?_eq_getLast (show a ∈ l.getLast? from by
    rw [Option.mem_def, h])
  exact List.getLast_mem hne

/-- A `some (normal _)` answer of `compOfGroup` comes from a plain
group and names exactly that group. -/
theorem compOfGroup_normal_inv (g : List Char) (s : String)
    (h : compOfGroup g = some (.normal s)) :
    s.data = g ∧ g ≠ [] ∧ g ≠ ['.'] ∧ g ≠ ['.', '.'] := by
  unfold compOfGroup at h
  by_cases h1 : g = [] ∨ g = ['.']
  · simp [h1] at h
  · simp only [h1, if_false] at h
    by_cases h2 : g = ['.', '.']
    · simp [h2] at h
    · simp only [h2, if_false, Option.some.injEq] at h
      push_neg at h1
      cases h
      exact ⟨rfl, h1.1, h1.2, h2⟩

/-- Every normal component of a parsed path is non-empty, is not a dot
component, and contains no slash. -/
theorem parse_normal_props (p : String) (s : String)
    (h : PComp.normal s ∈ parseComponents p) :
    s.data ≠ [] ∧ s.data ≠ ['.'] ∧ s.data ≠ ['.', '.'] ∧ '/' ∉ s.data := by
  have fromGroup : ∀ g, g ∈ splitSlash p.data → compOfGroup g = some (.normal s) →
      s.data ≠ [] ∧ s.data ≠ ['.'] ∧ s.data ≠ ['.', '.'] ∧ '/' ∉ s.data := by
    intro g hmem hcg
    obtain ⟨hdata, h1, h2, h3⟩ := compOfGroup_normal_inv g s hcg
    subst hdata
    exact ⟨h1, h2, h3, splitSlash_groups p.data _ hmem⟩
  unfold parseComponents at h
  cases hs : splitSlash p.data with
  | nil => exact absurd hs (splitSlash_ne_nil p.data)
  | cons g gs =>
    rw [hs] at h
    by_cases hnil : p.data = []
    · simp [hnil] at h
    · simp only [hnil, if_false] at h
      by_cases hge : g = []
      · simp only [hge, if_true] at h
        rcases List.mem_cons.mp h with heq | hmem
        · cases heq
        · obtain ⟨g', hg', hcg'⟩ := List.mem_filterMap.mp hmem
          exact fromGroup g' (hs ▸ List.mem_cons_of_mem g hg') hcg'
      · simp only [hge, if_false] at h
        rcases List.mem_append.mp h with hmem | hmem
        · by_cases hdot : g = ['.']
          · simp [hdot] at hmem
          · simp only [hdot, if_false] at hmem
            rw [Option.mem_toList, Option.mem_def] at hmem
            exact fromGroup g (hs ▸ List.mem_cons_self g gs) hmem
        · obtain ⟨g', hg', hcg'⟩ := List.mem_filterMap.mp hmem
          exact fromGroup g' (hs ▸ List.mem_cons_of_mem g hg') hcg'

/-- The final normal component of a path is non-empty, is not a dot
component, and contains no slash. -/
theorem fileName_props (p n : String) (h : fileName p = some n) :
    n.data ≠ [] ∧ n.data ≠ ['.'] ∧ n.data ≠ ['.', '.'] ∧ '/' ∉ n.data := by
  unfold fileName at h
  cases hl : (parseComponents p).getLast? with
  | none => rw [hl] at h; cases h
  | some comp =>
    rw [hl] at h
    cases comp with
    | normal s =>
      cases h
      exact parse_normal_props p n (mem_of_getLast?_eq _ _ hl)
    | rootDir => cases h
    | curDir => cases h
    | parentDir => cases h

/-- A plain path segment: non-empty, not a dot group, slash-free. -/
def Seg (g : List Char) : Prop :=
  g ≠ [] ∧ g ≠ ['.'] ∧ g ≠ ['.', '.'] ∧ '/' ∉ g

/-- A plain segment is a normal component. -/
theorem compOfGroup_seg (g : List Char) (h : Seg g) :
    compOfGroup g = some (.normal (String.mk g)) :=
  compOfGroup_normal g h.1 h.2.1 h.2.2.1

/-- Components of a five-segment path `bg/y/m/d/last` (the shape of
every link path the program computes from a well-formed timestamp). -/
theorem parseComponents_targ (p : String) (bg y m d last : List Char)
    (hdata : p.data = bg ++ '/' :: (y ++ '/' :: (m ++ '/' :: (d ++ '/' :: last))))
    (hbg : '/' ∉ bg) (hbne : bg ≠ []) (hbdots : bg ≠ ['.', '.'])
    (hy : Seg y) (hm : Seg m) (hd : Seg d) (hlast : Seg last) :
    parseComponents p =
      (if bg = ['.'] then [PComp.curDir] else [PComp.normal (String.mk bg)]) ++
      [PComp.normal (String.mk y), PComp.normal (String.mk m),
       PComp.normal (String.mk d), PComp.normal (String.mk last)] := by
  rw [parseComponents_data_head p bg _ hdata hbg hbne]
  rw [splitSlash_seg y _ hy.2.2.2, splitSlash_seg m _ hm.2.2.2,
      splitSlash_seg d _ hd.2.2.2, splitSlash_noSlash last hlast.2.2.2]
  rw [List.filterMap_cons, List.filterMap_cons, List.filterMap_cons,
      List.filterMap_cons, List.filterMap_nil,
      compOfGroup_seg y hy, compOfGroup_seg m hm, compOfGroup_seg d hd,
      compOfGroup_seg last hlast]
  by_cases hdot : bg = ['.']
  · simp [hdot]
  · simp [hdot, compOfGroup_normal bg hbne hdot hbdots]

/-- An absolute path parses to a root component followed by the
classified remaining groups. -/
theorem parseComponents_absolute (p : String) (h : isAbsolute p = true) :
    ∃ rest, parseComponents p = .rootDir :: rest := by
  cases hdata : p.data with
  | nil =>
    unfold isAbsolute at h
    rw [hdata] at h
    cases h
  | cons c cs =>
    unfold isAbsolute at h
    rw [hdata] at h
    have hc : c = '/' := by simpa using h
    subst hc
    refine ⟨(splitSlash cs).filterMap compOfGroup, ?_⟩
    unfold parseComponents
    rw [hdata, show splitSlash ('/' :: cs) = [] :: splitSlash cs by simp [splitSlash]]
    simp

/-- Resolving an absolute path ignores the starting directory. -/
theorem resolvePath_absolute (p : String) (h : isAbsolute p = true)
    (acc acc' : List String) :
    resolvePath acc p = resolvePath acc' p := by
  obtain ⟨rest, hparse⟩ := parseComponents_absolute p h
  unfold resolvePath
  rw [hparse]
  simp [resolveStep]

/-- Pushing an absolute path replaces everything before it. -/
theorem mkSrc_absolute (file : String) (h : isAbsolute file = true) (bs : Bool) :
    mkSrc bs file = file := by
  unfold mkSrc pushPath
  simp [h]

/-- Pushing a relative path onto a non-empty path that does not end in
a separator inserts one separator. -/
theorem pushPath_rel (a file : String) (h : isAbsolute file = false)
    (ha : a ≠ "") (hs : endsSlash a = false) :
    pushPath a file = a ++ "/" ++ file := by
  unfold pushPath
  rw [h, hs]
  simp [ha]

/-- The relative link targets `main` builds: three ups without
`--base`, four with it. -/
theorem mkSrc_relative (file : String) (h : isAbsolute file = false) :
    mkSrc false file = "../../.." ++ "/" ++ file ∧
    mkSrc true file = "../../../.." ++ "/" ++ file := by
  constructor
  · rw [show mkSrc false file = pushPath "../../.." file from rfl]
    exact pushPath_rel _ _ h (by decide) rfl
  · rw [show mkSrc true file = pushPath "../../../.." file from rfl]
    exact pushPath_rel _ _ h (by decide) rfl

/-- Components of `../../../file`: three parent components, then the
file's own groups. -/
theorem parseComponents_ups3 (file : String) :
    parseComponents ("../../.." ++ "/" ++ file) =
      [.parentDir, .parentDir, .parentDir] ++
        (splitSlash file.data).filterMap compOfGroup := by
  have hdata : ("../../.." ++ "/" ++ file).data
      = ['.', '.'] ++ '/' :: (['.', '.'] ++ '/' :: (['.', '.'] ++ '/' :: file.data)) := by
    rw [String.data_append, String.data_append,
        show ("../../.." : String).data = ['.', '.', '/', '.', '.', '/', '.', '.'] from rfl,
        show ("/" : String).data = ['/'] from rfl]
    simp
  rw [parseComponents_data_head _ ['.', '.'] _ hdata (by decide) (by decide)]
  rw [splitSlash_seg ['.', '.'] _ (by decide), splitSlash_seg ['.', '.'] _ (by decide)]
  rw [List.filterMap_cons, List.filterMap_cons,
      show compOfGroup ['.', '.'] = some PComp.parentDir from rfl]
  simp [compOfGroup]

/-- Components of `../../../../file`: four parent components, then the
file's own groups. -/
theorem parseComponents_ups4 (file : String) :
    parseComponents ("../../../.." ++ "/" ++ file) =
      [.parentDir, .parentDir, .parentDir, .parentDir] ++
        (splitSlash file.data).filterMap compOfGroup := by
  have hdata : ("../../../.." ++ "/" ++ file).data
      = ['.', '.'] ++ '/' :: (['.', '.'] ++ '/' ::
          (['.', '.'] ++ '/' :: (['.', '.'] ++ '/' :: file.data))) := by
    rw [String.data_append, String.data_append,
        show ("../../../.." : String).data
          = ['.', '.', '/', '.', '.', '/', '.', '.', '/', '.', '.'] from rfl,
        show ("/" : String).data = ['/'] from rfl]
    simp
  rw [parseComponents_data_head _ ['.', '.'] _ hdata (by decide) (by decide)]
  rw [splitSlash_seg ['.', '.'] _ (by decide), splitSlash_seg ['.', '.'] _ (by decide),
      splitSlash_seg ['.', '.'] _ (by decide)]
  rw [List.filterMap_cons, List.filterMap_cons, List.filterMap_cons,
      show compOfGroup ['.', '.'] = some PComp.parentDir from rfl]
  simp [compOfGroup]

/-- For a non-empty relative path, folding the classified groups is
the same as folding its components: the only difference is a leading
`.` group, kept as a `CurDir` component, which resolution ignores. -/
theorem resolve_tail_eq (file : String) (hrel : isAbsolute file = false)
    (hne : file ≠ "") (acc : List String) :
    ((splitSlash file.data).filterMap compOfGroup).foldl resolveStep acc =
      resolvePath acc file := by
  unfold resolvePath parseComponents
  cases hdata : file.data with
  | nil => exact absurd (String.ext hdata) hne
  | cons c cs =>
    have hc : ¬(c = '/') := by
      intro hcc
      subst hcc
      unfold isAbsolute at hrel
      rw [hdata] at hrel
      simp at hrel
    cases hs : splitSlash cs with
    | nil => exact absurd hs (splitSlash_ne_nil cs)
    | cons g gs =>
      have hsplit : splitSlash (c :: cs) = (c :: g) :: gs := by
        simp [splitSlash, hc, hs]
      rw [hsplit]
      by_cases hdot : c :: g = ['.']
      · rw [hdot]
        simp [compOfGroup, resolveStep]
      · have hsome : ∃ pc, compOfGroup (c :: g) = some pc := by
          unfold compOfGroup
          by_cases h2 : c :: g = ['.', '.'] <;> simp [hdot, h2]
        obtain ⟨pc, hpc⟩ := hsome
        simp [hdot, hpc, List.filterMap_cons]

/-- C2 (amended): a created link resolves back to the original input
file when the extracted timestamp is exactly `YYYY-MM-DD HH:MM:SS`,
the input path has a final normal component, and either the input path
is absolute, or `--base` is absent (default `.`), or the given base is
a single plain path component.  (The stored target hard-codes a fixed
number of `..` components, so other bases can break the link.) -/
theorem claim2_amended_resolution
    (cfg : Config) (cwd : List String) (ex : ExifData)
    (file name targ y m d hh mm ss : String)
    (hy : y.length = 4) (hm : m.length = 2) (hd : d.length = 2)
    (hH : hh.length = 2) (hM : mm.length = 2) (hS : ss.length = 2)
    (dy : ∀ c ∈ y.data, c.isDigit = true) (dm : ∀ c ∈ m.data, c.isDigit = true)
    (dd : ∀ c ∈ d.data, c.isDigit = true) (dH : ∀ c ∈ hh.data, c.isDigit = true)
    (dM : ∀ c ∈ mm.data, c.isDigit = true) (dS : ∀ c ∈ ss.data, c.isDigit = true)
    (hname : fileName file = some name)
    (hdt : first_of file ex DATETIME =
      .ok (y ++ "-" ++ m ++ "-" ++ d ++ " " ++ hh ++ ":" ++ mm ++ ":" ++ ss))
    (hcase : isAbsolute file = true
      ∨ (isAbsolute file = false ∧ (cfg.baseArg = none
          ∨ ∃ b, cfg.baseArg = some b ∧ b ≠ "" ∧ b ≠ "." ∧ b ≠ ".." ∧ '/' ∉ b.data)))
    (htarg : link_name ex file cfg.base = .ok targ) :
    resolveLink cwd targ (mkSrc cfg.baseSet file) = resolvePath cwd file := by
  rcases hcase with habs | ⟨hrel, hbase⟩
  · rw [mkSrc_absolute file habs]
    exact resolvePath_absolute file habs _ cwd
  · have hfile_ne : file ≠ "" := by
      intro he
      subst he
      rw [show fileName "" = none from rfl] at hname
      cases hname
    have hrepl := replDate_timestamp y m d hh mm ss hy hm hd hH hM hS dy dm dd dH dM dS
    have hln : link_name ex file cfg.base =
        .ok (cfg.base ++ "/" ++ (y ++ "/" ++ m ++ "/" ++ d ++ "/" ++
          hh ++ "-" ++ mm ++ "-" ++ ss ++ "-") ++ replaceSpaces name) := by
      simp only [link_name, hdt, hname, hrepl]
    rw [hln] at htarg
    have htv := Except.ok.inj htarg
    subst htv
    obtain ⟨hn1, hn2, hn3, hn4⟩ := fileName_props file name hname
    have hy' : y.data.length = 4 := hy
    have hm' : m.data.length = 2 := hm
    have hd' : d.data.length = 2 := hd
    have hH' : hh.data.length = 2 := hH
    have hM' : mm.data.length = 2 := hM
    have hS' : ss.data.length = 2 := hS
    have hyne : y.data ≠ [] := by intro h0; rw [h0] at hy'; cases hy'
    have hmne : m.data ≠ [] := by intro h0; rw [h0] at hm'; cases hm'
    have hdne : d.data ≠ [] := by intro h0; rw [h0] at hd'; cases hd'
    have hsy : Seg y.data :=
      ⟨hyne, (digit_seg y.data dy).1, (digit_seg y.data dy).2.1, (digit_seg y.data dy).2.2⟩
    have hsm : Seg m.data :=
      ⟨hmne, (digit_seg m.data dm).1, (digit_seg m.data dm).2.1, (digit_seg m.data dm).2.2⟩
    have hsd : Seg d.data :=
      ⟨hdne, (digit_seg d.data dd).1, (digit_seg d.data dd).2.1, (digit_seg d.data dd).2.2⟩
    have hLlen : 9 ≤ (hh.data ++ '-' :: (mm.data ++ '-' :: (ss.data ++ '-' ::
        (replaceSpaces name).data))).length := by
      simp only [List.length_append, List.length_cons, hH', hM', hS']
      omega
    have hLslash : '/' ∉ hh.data ++ '-' :: (mm.data ++ '-' :: (ss.data ++ '-' ::
        (replaceSpaces name).data)) := by
      intro hmem
      simp only [List.mem_append, List.mem_cons] at hmem
      rcases hmem with h1 | h1 | h1 | h1 | h1 | h1 | h1
      · exact absurd (dH '/' h1) (by decide)
      · exact absurd h1 (by decide)
      · exact absurd (dM '/' h1) (by decide)
      · exact absurd h1 (by decide)
      · exact absurd (dS '/' h1) (by decide)
      · exact absurd h1 (by decide)
      · exact replaceSpaces_noSlash name hn4 h1
    have hsL : Seg (hh.data ++ '-' :: (mm.data ++ '-' :: (ss.data ++ '-' ::
        (replaceSpaces name).data))) := by
      refine ⟨?_, (long_seg _ (by omega)).1, (long_seg _ (by omega)).2, hLslash⟩
      intro h0
      rw [h0] at hLlen
      simp at hLlen
    rcases hbase with hnone | ⟨b, hsome, hbne, hbdot, hbdd, hbslash⟩
    · have hbase_eq : cfg.base = "." := by simp [Config.base, hnone]
      have hbset : cfg.baseSet = false := by simp [Config.baseSet, hnone]
      rw [hbase_eq, hbset]
      have hdata : ("." ++ "/" ++ (y ++ "/" ++ m ++ "/" ++ d ++ "/" ++
            hh ++ "-" ++ mm ++ "-" ++ ss ++ "-") ++ replaceSpaces name).data
          = ['.'] ++ '/' :: (y.data ++ '/' :: (m.data ++ '/' :: (d.data ++ '/' ::
              (hh.data ++ '-' :: (mm.data ++ '-' :: (ss.data ++ '-' ::
                (replaceSpaces name).data)))))) := by
        simp [String.data_append]
      have hpc := parseComponents_targ _ ['.'] y.data m.data d.data _ hdata
        (by decide) (by decide) (by decide) hsy hsm hsd hsL
      rw [if_pos rfl] at hpc
      have hres : resolvePath cwd ("." ++ "/" ++ (y ++ "/" ++ m ++ "/" ++ d ++ "/" ++
            hh ++ "-" ++ mm ++ "-" ++ ss ++ "-") ++ replaceSpaces name)
          = cwd ++ [String.mk y.data, String.mk m.data, String.mk d.data,
              String.mk (hh.data ++ '-' :: (mm.data ++ '-' :: (ss.data ++ '-' ::
                (replaceSpaces name).data)))] := by
        unfold resolvePath
        rw [hpc]
        simp [resolveStep]
      unfold resolveLink
      rw [hres, (mkSrc_relative file hrel).1]
      have hsrc : resolvePath ((cwd ++ [String.mk y.data, String.mk m.data,
            String.mk d.data,
            String.mk (hh.data ++ '-' :: (mm.data ++ '-' :: (ss.data ++ '-' ::
              (replaceSpaces name).data)))]).dropLast) ("../../.." ++ "/" ++ file)
          = ((splitSlash file.data).filterMap compOfGroup).foldl resolveStep cwd := by
        unfold resolvePath
        rw [parseComponents_ups3 file, List.foldl_append]
        simp [resolveStep]
      rw [hsrc]
      exact resolve_tail_eq file hrel hfile_ne cwd
    · have hbase_eq : cfg.base = b := by simp [Config.base, hsome]
      have hbset : cfg.baseSet = true := by simp [Config.baseSet, hsome]
      rw [hbase_eq, hbset]
      have hbne' : b.data ≠ [] := fun h0 => hbne (String.ext h0)
      have hbdot' : b.data ≠ ['.'] := fun h0 => hbdot (String.ext h0)
      have hbdd' : b.data ≠ ['.', '.'] := fun h0 => hbdd (String.ext h0)
      have hdata : (b ++ "/" ++ (y ++ "/" ++ m ++ "/" ++ d ++ "/" ++
            hh ++ "-" ++ mm ++ "-" ++ ss ++ "-") ++ replaceSpaces name).data
          = b.data ++ '/' :: (y.data ++ '/' :: (m.data ++ '/' :: (d.data ++ '/' ::
              (hh.data ++ '-' :: (mm.data ++ '-' :: (ss.data ++ '-' ::
                (replaceSpaces name).data)))))) := by
        simp [String.data_append]
      have hpc := parseComponents_targ _ b.data y.data m.data d.data _ hdata
        hbslash hbne' hbdd' hsy hsm hsd hsL
      rw [if_neg hbdot'] at hpc
      have hres : resolvePath cwd (b ++ "/" ++ (y ++ "/" ++ m ++ "/" ++ d ++ "/" ++
            hh ++ "-" ++ mm ++ "-" ++ ss ++ "-") ++ replaceSpaces name)
          = cwd ++ [String.mk b.data, String.mk y.data, String.mk m.data,
              String.mk d.data,
              String.mk (hh.data ++ '-' :: (mm.data ++ '-' :: (ss.data ++ '-' ::
                (replaceSpaces name).data)))] := by
        unfold resolvePath
        rw [hpc]
        simp [resolveStep]
      unfold resolveLink
      rw [hres, (mkSrc_relative file hrel).2]
      have hsrc : resolvePath ((cwd ++ [String.mk b.data, String.mk y.data,
            String.mk m.data, String.mk d.data,
            String.mk (hh.data ++ '-' :: (mm.data ++ '-' :: (ss.data ++ '-' ::
              (replaceSpaces name).data)))]).dropLast) ("../../../.." ++ "/" ++ file)
          = ((splitSlash file.data).filterMap compOfGroup).foldl resolveStep cwd := by
        unfold resolvePath
        rw [parseComponents_ups4 file, List.foldl_append]
        simp [resolveStep]
      rw [hsrc]
      exact resolve_tail_eq file hrel hfile_ne cwd

/-- C2 as frozen is false: with `--base a/b` (two path components) the
file `photo.jpg` is processed successfully and the link is created,
but the stored target `../../../../photo.jpg` resolves from the link's
directory to `a/photo.jpg` under the working directory, not to the
original `photo.jpg`. -/
theorem claim2_counterexample :
    (processFile ⟨false, false, some "a/b"⟩ ⟨[("photo.jpg", fGood)], [], []⟩
        "photo.jpg").1 =
      [.echoMkdir "a/b/2021/12/31", .mkdirAll "a/b/2021/12/31",
       .echoLink "../../../../photo.jpg" "a/b/2021/12/31/23-59-58-photo.jpg",
       .mkLink "../../../../photo.jpg" "a/b/2021/12/31/23-59-58-photo.jpg"] ∧
    resolveLink ["home"] "a/b/2021/12/31/23-59-58-photo.jpg" "../../../../photo.jpg"
      = ["home", "a", "photo.jpg"] ∧
    resolvePath ["home"] "photo.jpg" = ["home", "photo.jpg"] ∧
    (["home", "a", "photo.jpg"] : List String) ≠ ["home", "photo.jpg"] :=
  ⟨by rfl, by rfl, by rfl, by decide⟩

/-- Witness for C2 (amended): with the default base, the created link
for `photo.jpg` resolves back to the original file. -/
theorem claim2_witness :
    resolveLink ["home"] "./2021/12/31/23-59-58-photo.jpg" (mkSrc false "photo.jpg")
      = resolvePath ["home"] "photo.jpg" :=
  claim2_amended_resolution ⟨false, false, none⟩ ["home"]
    ⟨[⟨Tag.dateTimeOriginal, 0, "2021-12-31 23:59:58"⟩]⟩
    "photo.jpg" "photo.jpg" "./2021/12/31/23-59-58-photo.jpg"
    "2021" "12" "31" "23" "59" "58"
    rfl rfl rfl rfl rfl rfl
    (by decide) (by decide) (by decide) (by decide) (by decide) (by decide)
    rfl rfl
    (Or.inr ⟨rfl, Or.inl rfl⟩)
    rfl

/-- EXIF record whose timestamp display value carries extra text
around the date pattern. -/
def exJunkDate : ExifData := ⟨[⟨Tag.dateTimeDigitized, 0, "x2019-01-02 03:04:05"⟩]⟩

/-- C3 as frozen is false: a timestamp string that merely contains the
date pattern keeps its surrounding text, so the result is not
`base ++ "/" ++ "YYYY/MM/DD/HH-MM-SS-" ++ basename`. -/
theorem claim3_counterexample :
    link_name exJunkDate "p.jpg" "b" = .ok "b/x2019/01/02/03-04-05-p.jpg" ∧
    "b/x2019/01/02/03-04-05-p.jpg" ≠ "b" ++ "/" ++ "2019/01/02/03-04-05-" ++ "p.jpg" :=
  ⟨by rfl, by decide⟩

/-- C3 (amended): when the extracted timestamp string is exactly of
the form `YYYY-MM-DD HH:MM:SS` and the path has a final normal
component, `link_name` returns
`base ++ "/" ++ "YYYY/MM/DD/HH-MM-SS-" ++ basename` with each space of
the basename replaced by `-`. -/
theorem claim3_amended_substitution
    (ex : ExifData) (path base name y m d hh mm ss : String)
    (hy : y.length = 4) (hm : m.length = 2) (hd : d.length = 2)
    (hH : hh.length = 2) (hM : mm.length = 2) (hS : ss.length = 2)
    (dy : ∀ c ∈ y.data, c.isDigit = true) (dm : ∀ c ∈ m.data, c.isDigit = true)
    (dd : ∀ c ∈ d.data, c.isDigit = true) (dH : ∀ c ∈ hh.data, c.isDigit = true)
    (dM : ∀ c ∈ mm.data, c.isDigit = true) (dS : ∀ c ∈ ss.data, c.isDigit = true)
    (hname : fileName path = some name)
    (hdt : first_of path ex DATETIME =
      .ok (y ++ "-" ++ m ++ "-" ++ d ++ " " ++ hh ++ ":" ++ mm ++ ":" ++ ss)) :
    link_name ex path base =
      .ok (base ++ "/" ++ (y ++ "/" ++ m ++ "/" ++ d ++ "/" ++
           hh ++ "-" ++ mm ++ "-" ++ ss ++ "-") ++ replaceSpaces name) := by
  have hrepl := replDate_timestamp y m d hh mm ss hy hm hd hH hM hS dy dm dd dH dM dS
  simp only [link_name, hdt, hname, hrepl]

/-- Witness for C3 (amended): a concrete well-formed timestamp and a
basename with a space. -/
theorem claim3_witness :
    link_name exDated "a b.jpg" "pics" = .ok "pics/2020/01/02/03-04-05-a-b.jpg" :=
  (claim3_amended_substitution exDated "a b.jpg" "pics" "a b.jpg"
    "2020" "01" "02" "03" "04" "05" rfl rfl rfl rfl rfl rfl
    (by decide) (by decide) (by decide) (by decide) (by decide) (by decide)
    rfl rfl).trans (by rfl)

/-- Witness for C9: the path `my pics/..` has no final normal
component, so the whole path string, spaces dashed, becomes the link
file name. -/
theorem claim9_witness :
    link_name exDated "my pics/.." "b" = .ok "b/2020/01/02/03-04-05-my-pics/.." :=
  (((claim9_basename_spaces exDated "my pics/.." "b" "2020-01-02 03:04:05"
      rfl).2) rfl).trans (by rfl)

/-- Witness for C8: a `--no-execute` run over the mixed world changes
nothing, and the good file still has its `ln -s` line printed. -/
theorem claim8_witness :
    (processAll cfgNoExec wMixed ["tiny.jpg", "good.jpg"]).2 = wMixed ∧
    Eff.echoLink (mkSrc false "good.jpg") "./2021/12/31/23-59-58-good.jpg" ∈
      (processFile cfgNoExec wMixed "good.jpg").1 :=
  ⟨(claim8_no_execute.1 cfgNoExec wMixed ["tiny.jpg", "good.jpg"] rfl).1,
   ((claim8_no_execute.2 cfgNoExec wMixed "good.jpg"
      ⟨[⟨Tag.dateTimeOriginal, 0, "2021-12-31 23:59:58"⟩]⟩
      "./2021/12/31/23-59-58-good.jpg" rfl rfl rfl rfl).1)⟩

end Imagelink
